import Mathlib

/-!
# Verification of the `ttlmap` Go package

Shallow embedding of `TtlMap.go` (package `ttlmap`, version 0.1.1) together
with the retained version 0.1.0 variant of the same file. Go maps are
embedded as association lists with unique keys; time is the `Int` of UNIX
nanosecond timestamps; each method that reads the wall clock receives the
current instant as an explicit `now` parameter. The sweeper goroutine is
embedded as a state machine stepped by `tick` and `stopSignal` events.
-/

set_option maxHeartbeats 1000000
set_option linter.unusedVariables false
set_option linter.unusedSectionVars false

/-- Well-formedness of an embedded Go map: the association list carries each
key at most once, as a Go map does. -/
def GoMapWF {K β : Type} (l : List (K × β)) : Prop :=
  (l.map Prod.fst).Nodup

/-- Embedding of Go map indexing `v, ok := m[key]`: the value stored under
`key`, if any. -/
def goFind {K β : Type} [DecidableEq K] : List (K × β) → K → Option β
  | [], _ => none
  | (k, b) :: rest, key => if k = key then some b else goFind rest key

/-- Embedding of Go map assignment `m[key] = b`: replaces the binding of
`key` when present, otherwise adds one. -/
def goAssign {K β : Type} [DecidableEq K] : List (K × β) → K → β → List (K × β)
  | [], key, b => [(key, b)]
  | (k, b0) :: rest, key, b =>
      if k = key then (key, b) :: rest else (k, b0) :: goAssign rest key b

/-- Embedding of Go's builtin `delete(m, key)`: removes the binding of
`key` when present. -/
def goErase {K β : Type} [DecidableEq K] : List (K × β) → K → List (K × β)
  | [], _ => []
  | (k, b0) :: rest, key =>
      if k = key then rest else (k, b0) :: goErase rest key

/-- Embedding of `maps.Copy(dst, src)`: assigns every binding of `src` into
`dst`, in order. -/
def goCopy {K β : Type} [DecidableEq K] (dst src : List (K × β)) : List (K × β) :=
  src.foldl (fun d p => goAssign d p.1 p.2) dst

/-- `item` is an entry in a `TtlMap` (source lines 37-43): the stored value
together with `expires`, the nanosecond UNIX timestamp at which the item
expires. -/
structure item (V : Type) where
  value : V
  expires : Int
deriving Repr, DecidableEq

/-- The `TtlMap` state (source lines 45-54): the entry table and the
configured time-to-live in nanoseconds. The mutex and the stop channel are
not data; the mutex serialises the operations (each embedded operation is
one critical section) and the stop channel is part of the sweeper state
machine below. -/
structure TtlMap (K V : Type) where
  entries : List (K × item V)
  ttl : Int
deriving Repr, DecidableEq

/-- A `TtlMap` is well formed when its entry table is a well-formed Go map. -/
def TtlMap.WF {K V : Type} (m : TtlMap K V) : Prop :=
  GoMapWF m.entries

/-- The map part of `New` (source lines 56-63): an empty entry table with
the given ttl. The capacity is only a sizing hint of `make` and the prune
interval is only read by the sweeper goroutine; `New` itself performs no
validation of either and always returns a map. -/
def New (K V : Type) (capacity : Nat) (ttl : Int) (pruneInterval : Int) :
    TtlMap K V :=
  { entries := [], ttl := ttl }

/-- One sweep pass of the goroutine started by `New` (source lines 72-83):
with the lock held, every entry with `currentTime >= v.expires` is deleted;
the entries that remain are exactly those with `expires > currentTime`. -/
def TtlMap.sweep {K V : Type} (m : TtlMap K V) (currentTime : Int) :
    TtlMap K V :=
  { m with entries := m.entries.filter fun p => decide (currentTime < p.2.expires) }

/-- `Len` (source lines 90-95): the number of entries in the table. -/
def TtlMap.Len {K V : Type} (m : TtlMap K V) : Nat :=
  m.entries.length

/-- `Put` (source lines 97-104): unconditionally stores
`item(value, now + ttl)` under `key`, where `now` is the instant
`time.Now()` read inside `Put` (`time.Now().Add(m.ttl).UnixNano()` is the
nanosecond timestamp `now + ttl`). -/
def TtlMap.Put {K V : Type} [DecidableEq K] (m : TtlMap K V) (now : Int)
    (key : K) (value : V) : TtlMap K V :=
  { m with entries := goAssign m.entries key ⟨value, now + m.ttl⟩ }

/-- `Get` (source lines 106-114) as a state transformer: returns
`(value, ok)` — the stored value and `true` when the key is present, the
zero value and `false` otherwise — together with the map state after the
call. The body only reads `m.entries`, so the state after the call is `m`
itself. -/
def TtlMap.GetS {K V : Type} [DecidableEq K] [Inhabited V] (m : TtlMap K V)
    (key : K) : (V × Bool) × TtlMap K V :=
  match goFind m.entries key with
  | some it => ((it.value, true), m)
  | none => ((default, false), m)

/-- The value/flag pair returned by `Get`. -/
def TtlMap.Get {K V : Type} [DecidableEq K] [Inhabited V] (m : TtlMap K V)
    (key : K) : V × Bool :=
  (m.GetS key).1

/-- `GetOrZero` (source lines 116-123) as a state transformer: returns the
stored value when present, the zero value of `V` otherwise; the body only
reads `m.entries`. -/
def TtlMap.GetOrZeroS {K V : Type} [DecidableEq K] [Inhabited V]
    (m : TtlMap K V) (key : K) : V × TtlMap K V :=
  match goFind m.entries key with
  | some it => (it.value, m)
  | none => (default, m)

/-- The value returned by `GetOrZero`. -/
def TtlMap.GetOrZero {K V : Type} [DecidableEq K] [Inhabited V]
    (m : TtlMap K V) (key : K) : V :=
  (m.GetOrZeroS key).1

/-- `Delete` (source lines 125-134): when `key` is absent returns `false`
and leaves the table as is; otherwise removes the binding and returns
`true`. -/
def TtlMap.Delete {K V : Type} [DecidableEq K] (m : TtlMap K V) (key : K) :
    Bool × TtlMap K V :=
  match goFind m.entries key with
  | none => (false, m)
  | some _ => (true, { m with entries := goErase m.entries key })

/-- `Clear` (source lines 136-140): removes every entry. -/
def TtlMap.Clear {K V : Type} (m : TtlMap K V) : TtlMap K V :=
  { m with entries := [] }

/-- `Copy` (source lines 142-148): allocates a fresh map `dst` and copies
every binding of `m.entries` into it with `maps.Copy`. -/
def TtlMap.Copy {K V : Type} [DecidableEq K] (m : TtlMap K V) :
    List (K × item V) :=
  goCopy [] m.entries

/-- `Copy` as a state transformer: the returned table together with the map
state after the call; the body only reads `m.entries`. -/
def TtlMap.CopyS {K V : Type} [DecidableEq K] (m : TtlMap K V) :
    List (K × item V) × TtlMap K V :=
  (goCopy [] m.entries, m)

/-- The runtime faults the embedded code can raise. Unlocking an unlocked
`sync.Mutex` is a fatal runtime error in Go, and `time.NewTicker` panics on
a non-positive interval. -/
inductive GoFault where
  | unlockOfUnlockedMutex
  | nonPositiveTickerInterval
deriving Repr, DecidableEq

/-- Embedding of `time.NewTicker(d)`: panics (here: errors) when the
interval is not positive, otherwise yields a ticker of period `d`. The
first statement of the sweeper goroutine started by `New` (source line 66)
is exactly this call on `pruneInterval`. -/
def newTicker (d : Int) : Except GoFault Int :=
  if d ≤ 0 then Except.error GoFault.nonPositiveTickerInterval else Except.ok d

/-- Embedding of `sync.Mutex.Unlock` on a mutex whose state is the boolean
`locked`: faults when the mutex is not locked, otherwise leaves it
unlocked. -/
def mutexUnlock (locked : Bool) : Except GoFault Bool :=
  if locked then Except.ok false else Except.error GoFault.unlockOfUnlockedMutex

/-- The two states of the sweeper goroutine started by `New` (source lines
65-86): it is running its `for`/`select` loop, or it has returned. -/
inductive SweeperState where
  | running
  | stopped
deriving Repr, DecidableEq

/-- The whole embedded system: the map state, the sweeper's state, and
whether the sweeper's ticker is still live (`ticker.Stop()` has not yet
run). -/
structure Sys (K V : Type) where
  map : TtlMap K V
  sweeper : SweeperState
  tickerActive : Bool
deriving Repr, DecidableEq

/-- The events the sweeper goroutine reacts to: a tick of its ticker
carrying the current instant, or the one-shot stop signal sent on the
`stop` channel. -/
inductive SweeperEvent where
  | tick (now : Int)
  | stopSignal
deriving Repr, DecidableEq

/-- One iteration of the sweeper's `for`/`select` loop (source lines
68-85). A tick sweeps the table; the stop signal makes the goroutine
return, running the deferred `ticker.Stop()`. A goroutine that has already
returned processes no further event, so both events leave a stopped system
unchanged. -/
def sweeperStep {K V : Type} (ev : SweeperEvent) (s : Sys K V) : Sys K V :=
  match s.sweeper with
  | SweeperState.stopped => s
  | SweeperState.running =>
      match ev with
      | SweeperEvent.tick now => { s with map := s.map.sweep now }
      | SweeperEvent.stopSignal =>
          { s with sweeper := SweeperState.stopped, tickerActive := false }

/-- `Close` (source lines 150-153): `m.stop <- struct{}{}` blocks until the
sweeper receives the signal — so the send completing means the sweeper has
taken the `stopSignal` step — and then `m.Clear()` empties the table. -/
def Close {K V : Type} (s : Sys K V) : Sys K V :=
  let s1 := sweeperStep SweeperEvent.stopSignal s
  { s1 with map := s1.map.Clear }

/-! ## The retained version 0.1.0 variant of `TtlMap.go`

That file keys expiry off a per-item `lastAccess` UNIX-seconds timestamp
instead of an absolute deadline, and its `Delete` unlocks the mutex twice
on the absent-key branch. Only `Delete` is needed for the claims; it is
embedded with the mutex state made explicit so the double unlock is
visible. -/

/-- The entry type of the v0.1.0 variant: a value and the UNIX-seconds
timestamp of its last write. -/
structure ItemV0 (V : Type) where
  value : V
  lastAccess : Int
deriving Repr, DecidableEq

/-- The v0.1.0 map state: just the entry table (its ttl lives only in the
prune goroutine's closure). -/
structure TtlMapV0 (K V : Type) where
  entries : List (K × ItemV0 V)
deriving Repr, DecidableEq

/-- `Delete` of the v0.1.0 variant (source of that file, lines 100-110),
with the mutex state threaded explicitly. The method takes the lock; on
the absent-key branch it calls `m.lock.Unlock()` explicitly and then
`return false` runs the deferred `m.lock.Unlock()` a second time, which
faults; on the present-key branch the binding is removed and only the
deferred unlock runs. -/
def TtlMapV0.Delete {K V : Type} [DecidableEq K] (m : TtlMapV0 K V)
    (key : K) : Except GoFault (Bool × TtlMapV0 K V) := do
  let locked := true
  match goFind m.entries key with
  | none => do
      let locked ← mutexUnlock locked
      let _ ← mutexUnlock locked
      pure (false, m)
  | some _ => do
      let m1 : TtlMapV0 K V := { entries := goErase m.entries key }
      let _ ← mutexUnlock locked
      pure (true, m1)

/-! ## A heap of map objects

`Copy` hands the caller a Go map value. Whether caller mutations of that
value can reach the live table depends on object identity, so the copy
path is also embedded one level lower: a heap of map objects addressed by
identifiers, on which `Copy` allocates a fresh object. -/

/-- A heap of Go map objects: each allocated object is a binding from its
identifier to its contents; `next` is the next fresh identifier, so every
allocated identifier is below `next`. -/
structure MapHeap (K V : Type) where
  store : List (Nat × List (K × item V))
  next : Nat

/-- Heap well-formedness: every allocated identifier is below `next`. -/
def MapHeap.WF {K V : Type} (h : MapHeap K V) : Prop :=
  ∀ i ∈ h.store.map Prod.fst, i < h.next

/-- The body of `Copy` (source lines 142-148) at the heap level:
`make(map[K]*item[V], len(m.entries))` allocates a fresh object, and
`maps.Copy(dst, m.entries)` fills it from the live table stored under
`liveId`; the fresh object's identifier is returned. -/
def MapHeap.copyAlloc {K V : Type} [DecidableEq K] (h : MapHeap K V)
    (liveId : Nat) : Nat × MapHeap K V :=
  (h.next,
   { store := goAssign h.store h.next
       (goCopy [] ((goFind h.store liveId).getD [])),
     next := h.next + 1 })

/-- A caller-side mutation of the map object stored under identifier `i`:
any replacement of its contents. -/
def MapHeap.mutate {K V : Type} [DecidableEq K] (h : MapHeap K V) (i : Nat)
    (f : List (K × item V) → List (K × item V)) : MapHeap K V :=
  { h with store := goAssign h.store i (f ((goFind h.store i).getD [])) }

/-- A sequence of caller-side mutations of the object under identifier
`i`, applied in order. -/
def MapHeap.mutateMany {K V : Type} [DecidableEq K] (h : MapHeap K V)
    (i : Nat) (fs : List (List (K × item V) → List (K × item V))) :
    MapHeap K V :=
  fs.foldl (fun acc f => acc.mutate i f) h

/-! ## Lemmas about the embedded Go map operations -/

example : goFind [((1 : Nat), (10 : Nat)), (2, 20)] 2 = some 20 := by decide
example : goAssign [((1 : Nat), (10 : Nat)), (2, 20)] 1 99 = [(1, 99), (2, 20)] := by decide
example : goErase [((1 : Nat), (10 : Nat)), (2, 20)] 1 = [(2, 20)] := by decide
example : goCopy [] [((1 : Nat), (10 : Nat)), (2, 20)] = [(1, 10), (2, 20)] := by decide

section GoMapLemmas

variable {K β : Type} [DecidableEq K]

theorem goFind_eq_none_of_not_mem {l : List (K × β)} {key : K}
    (h : key ∉ l.map Prod.fst) : goFind l key = none := by
  induction l with
  | nil => rfl
  | cons p rest ih =>
      obtain ⟨k, b⟩ := p
      simp only [List.map_cons, List.mem_cons] at h
      push_neg at h
      by_cases hk : k = key
      · exact absurd hk.symm h.1
      · simp [goFind, hk, ih h.2]

theorem mem_keys_of_goFind_some {l : List (K × β)} {key : K} {b : β}
    (h : goFind l key = some b) : key ∈ l.map Prod.fst := by
  induction l with
  | nil => simp [goFind] at h
  | cons p rest ih =>
      obtain ⟨k, b0⟩ := p
      simp only [goFind] at h
      by_cases hk : k = key
      · simp [hk]
      · simp only [if_neg hk] at h
        simp [ih h]

theorem goFind_goAssign_self (l : List (K × β)) (key : K) (b : β) :
    goFind (goAssign l key b) key = some b := by
  induction l with
  | nil => simp [goAssign, goFind]
  | cons p rest ih =>
      obtain ⟨k, b0⟩ := p
      by_cases hk : k = key
      · simp [goAssign, hk, goFind]
      · simp [goAssign, hk, goFind, ih]

theorem goFind_goAssign_ne (l : List (K × β)) {key key' : K} (b : β)
    (h : key' ≠ key) : goFind (goAssign l key b) key' = goFind l key' := by
  induction l with
  | nil => simp [goAssign, goFind, Ne.symm h]
  | cons p rest ih =>
      obtain ⟨k, b0⟩ := p
      by_cases hk : k = key
      · subst hk
        simp [goAssign, goFind, Ne.symm h]
      · simp only [goAssign, if_neg hk, goFind]
        by_cases hk' : k = key'
        · simp [hk']
        · simp [hk', ih]

theorem keys_goAssign_of_mem {l : List (K × β)} {key : K} (b : β)
    (h : key ∈ l.map Prod.fst) :
    (goAssign l key b).map Prod.fst = l.map Prod.fst := by
  induction l with
  | nil => simp at h
  | cons p rest ih =>
      obtain ⟨k, b0⟩ := p
      by_cases hk : k = key
      · simp [goAssign, hk]
      · simp only [List.map_cons, List.mem_cons] at h
        rcases h with h | h
        · exact absurd h.symm hk
        · simp [goAssign, hk, ih h]

theorem keys_goAssign_of_not_mem {l : List (K × β)} {key : K} (b : β)
    (h : key ∉ l.map Prod.fst) :
    (goAssign l key b).map Prod.fst = l.map Prod.fst ++ [key] := by
  induction l with
  | nil => simp [goAssign]
  | cons p rest ih =>
      obtain ⟨k, b0⟩ := p
      simp only [List.map_cons, List.mem_cons] at h
      push_neg at h
      simp [goAssign, Ne.symm h.1, ih h.2]

theorem GoMapWF.goAssign {l : List (K × β)} (h : GoMapWF l) (key : K)
    (b : β) : GoMapWF (goAssign l key b) := by
  unfold GoMapWF at *
  by_cases hm : key ∈ l.map Prod.fst
  · rw [keys_goAssign_of_mem b hm]; exact h
  · rw [keys_goAssign_of_not_mem b hm]
    refine List.Nodup.append h (List.nodup_singleton key) ?_
    intro a ha hb
    simp only [List.mem_singleton] at hb
    exact hm (hb ▸ ha)

theorem count_keys_goAssign {l : List (K × β)} (h : GoMapWF l) (key : K)
    (b : β) : ((goAssign l key b).map Prod.fst).count key = 1 := by
  have hwf : GoMapWF (goAssign l key b) := h.goAssign key b
  have hmem : key ∈ (goAssign l key b).map Prod.fst :=
    mem_keys_of_goFind_some (goFind_goAssign_self l key b)
  exact List.count_eq_one_of_mem hwf hmem

theorem goErase_of_not_found {l : List (K × β)} {key : K}
    (h : goFind l key = none) : goErase l key = l := by
  induction l with
  | nil => rfl
  | cons p rest ih =>
      obtain ⟨k, b0⟩ := p
      simp only [goFind] at h
      by_cases hk : k = key
      · simp [hk] at h
      · simp only [if_neg hk] at h
        simp [goErase, hk, ih h]

theorem keys_goErase_sublist (l : List (K × β)) (key : K) :
    ((goErase l key).map Prod.fst).Sublist (l.map Prod.fst) := by
  induction l with
  | nil => simp [goErase]
  | cons p rest ih =>
      obtain ⟨k, b0⟩ := p
      by_cases hk : k = key
      · simp only [goErase, if_pos hk, List.map_cons]
        exact (List.sublist_cons_self _ _)
      · simp only [goErase, if_neg hk, List.map_cons]
        exact ih.cons₂ _

theorem GoMapWF.goErase {l : List (K × β)} (h : GoMapWF l) (key : K) :
    GoMapWF (goErase l key) :=
  h.sublist (keys_goErase_sublist l key)

theorem goFind_goErase_self {l : List (K × β)} (h : GoMapWF l) (key : K) :
    goFind (goErase l key) key = none := by
  induction l with
  | nil => rfl
  | cons p rest ih =>
      obtain ⟨k, b0⟩ := p
      unfold GoMapWF at h
      simp only [List.map_cons, List.nodup_cons] at h
      by_cases hk : k = key
      · simp only [goErase, if_pos hk]
        exact goFind_eq_none_of_not_mem (hk ▸ h.1)
      · simp only [goErase, if_neg hk, goFind, if_neg hk]
        exact ih h.2

theorem goFind_goErase_ne (l : List (K × β)) {key key' : K}
    (h : key' ≠ key) : goFind (goErase l key) key' = goFind l key' := by
  induction l with
  | nil => rfl
  | cons p rest ih =>
      obtain ⟨k, b0⟩ := p
      by_cases hk : k = key
      · subst hk
        simp [goErase, goFind, Ne.symm h]
      · simp only [goErase, if_neg hk, goFind]
        by_cases hk' : k = key'
        · simp [hk']
        · simp [hk', ih]

theorem length_goErase {l : List (K × β)} {key : K} {b : β}
    (h : goFind l key = some b) : (goErase l key).length + 1 = l.length := by
  induction l with
  | nil => simp [goFind] at h
  | cons p rest ih =>
      obtain ⟨k, b0⟩ := p
      simp only [goFind] at h
      by_cases hk : k = key
      · simp [goErase, hk]
      · simp only [if_neg hk] at h
        simp [goErase, hk, ih h]

theorem goFind_some_mem {l : List (K × β)} {key : K} {b : β}
    (h : goFind l key = some b) : (key, b) ∈ l := by
  induction l with
  | nil => simp [goFind] at h
  | cons p rest ih =>
      obtain ⟨k, b0⟩ := p
      simp only [goFind] at h
      by_cases hk : k = key
      · subst hk
        rw [if_pos rfl] at h
        injection h with h
        simp [h]
      · simp only [if_neg hk] at h
        simp [ih h]

theorem GoMapWF.filter {l : List (K × β)} (h : GoMapWF l)
    (p : K × β → Bool) : GoMapWF (l.filter p) :=
  h.sublist ((l.filter_sublist).map Prod.fst)

theorem goFind_filter {l : List (K × β)} (hWF : GoMapWF l)
    (p : K × β → Bool) (key : K) :
    goFind (l.filter p) key =
      (goFind l key).bind fun b => if p (key, b) = true then some b else none := by
  induction l with
  | nil => rfl
  | cons q rest ih =>
      obtain ⟨k, b0⟩ := q
      unfold GoMapWF at hWF
      simp only [List.map_cons, List.nodup_cons] at hWF
      by_cases hk : k = key
      · subst hk
        by_cases hp : p (k, b0) = true
        · simp [List.filter_cons, hp, goFind]
        · have hnone : goFind (rest.filter p) k = none := by
            apply goFind_eq_none_of_not_mem
            intro hmem
            exact hWF.1 (((rest.filter_sublist).map Prod.fst).subset hmem)
          simp [List.filter_cons, hp, goFind, hnone]
      · by_cases hp : p (k, b0) = true
        · simp [List.filter_cons, hp, goFind, hk, ih hWF.2]
        · simp [List.filter_cons, hp, goFind, hk, ih hWF.2]

theorem goAssign_of_not_mem {l : List (K × β)} {key : K} (b : β)
    (h : key ∉ l.map Prod.fst) : goAssign l key b = l ++ [(key, b)] := by
  induction l with
  | nil => rfl
  | cons q rest ih =>
      obtain ⟨k, b0⟩ := q
      simp only [List.map_cons, List.mem_cons] at h
      push_neg at h
      simp [goAssign, Ne.symm h.1, ih h.2]

theorem goCopy_eq_append (dst : List (K × β)) {src : List (K × β)}
    (h : GoMapWF src) (hd : ∀ a ∈ src.map Prod.fst, a ∉ dst.map Prod.fst) :
    goCopy dst src = dst ++ src := by
  induction src generalizing dst with
  | nil => simp [goCopy]
  | cons q rest ih =>
      obtain ⟨k, b0⟩ := q
      unfold GoMapWF at h
      simp only [List.map_cons, List.nodup_cons] at h
      have hk : k ∉ dst.map Prod.fst := hd k (by simp)
      have step : goCopy dst ((k, b0) :: rest) = goCopy (goAssign dst k b0) rest := rfl
      have hd2 : ∀ a ∈ rest.map Prod.fst, a ∉ (dst ++ [(k, b0)]).map Prod.fst := by
        intro a ha
        simp only [List.map_append, List.mem_append, List.map_cons, List.map_nil,
          List.mem_singleton]
        push_neg
        exact ⟨hd a (by simp [ha]), fun hmem => absurd ha (hmem ▸ h.1)⟩
      rw [step, goAssign_of_not_mem b0 hk, ih (dst ++ [(k, b0)]) h.2 hd2]
      simp

theorem goCopy_nil {src : List (K × β)} (h : GoMapWF src) :
    goCopy [] src = src := by
  simpa using goCopy_eq_append [] h (by simp)

end GoMapLemmas

theorem goFind_mutateMany_ne {K V : Type} [DecidableEq K] (h : MapHeap K V)
    {i j : Nat} (hne : j ≠ i)
    (fs : List (List (K × item V) → List (K × item V))) :
    goFind (h.mutateMany i fs).store j = goFind h.store j := by
  induction fs generalizing h with
  | nil => rfl
  | cons f fs ih =>
      have step : h.mutateMany i (f :: fs) = (h.mutate i f).mutateMany i fs := rfl
      rw [step, ih (h.mutate i f)]
      simp [MapHeap.mutate, goFind_goAssign_ne _ _ hne]

/-- The value `sweep` leaves under a key: unchanged when its deadline is
still in the future, gone when the deadline has passed. -/
theorem goFind_sweep_eq {K V : Type} [DecidableEq K] (m : TtlMap K V)
    (hWF : m.WF) (now : Int) (key : K) :
    goFind (m.sweep now).entries key =
      (goFind m.entries key).bind fun it =>
        if now < it.expires then some it else none := by
  unfold TtlMap.sweep
  rw [goFind_filter hWF]
  cases hg : goFind m.entries key with
  | none => rfl
  | some it => simp

theorem length_filter_lt_of_mem {α : Type} {l : List α} {x : α} {p : α → Bool}
    (hx : x ∈ l) (hp : p x = false) : (l.filter p).length < l.length := by
  induction l with
  | nil => simp at hx
  | cons b rest ih =>
      rcases List.mem_cons.mp hx with rfl | h2
      · simp only [List.filter_cons, hp, Bool.false_eq_true, if_false, List.length_cons]
        exact Nat.lt_succ_of_le (List.length_filter_le p rest)
      · by_cases hb : p b = true
        · simp only [List.filter_cons, hb, if_true, List.length_cons]
          exact Nat.succ_lt_succ (ih h2)
        · simp only [List.filter_cons, hb, if_false, List.length_cons]
          exact Nat.lt_succ_of_lt (ih h2)

/-! ## The claims -/

/-- C1: On each sweep tick, an entry is deleted exactly when its deadline
has already passed at the instant of the check: after `sweep now`, a key
bound to `it` beforehand maps to nothing when `it.expires ≤ now` and still
to the unchanged `it` when `it.expires > now`. -/
theorem sweep_deletes_expired_iff {K V : Type} [DecidableEq K]
    (m : TtlMap K V) (hWF : m.WF) (now : Int) (key : K) (it : item V)
    (h : goFind m.entries key = some it) :
    goFind (m.sweep now).entries key =
      (if it.expires ≤ now then none else some it) := by
  rw [goFind_sweep_eq m hWF now key, h]
  by_cases hexp : it.expires ≤ now
  · simp [hexp, not_lt.mpr hexp]
  · simp [hexp, not_le.mp hexp]

/-- Witness for C1: a concrete map swept at the instant an entry expires. -/
theorem sweep_deletes_expired_iff_witness :
    goFind ((TtlMap.mk [((1 : Nat), item.mk (7 : Nat) 100)] 50).sweep 100).entries 1 =
      (if (item.mk (7 : Nat) 100).expires ≤ (100 : Int) then none
       else some (item.mk (7 : Nat) 100)) :=
  sweep_deletes_expired_iff (TtlMap.mk [(1, item.mk 7 100)] 50)
    (by unfold TtlMap.WF GoMapWF; decide) 100 1 (item.mk 7 100) (by decide)

/-- C2: `Put` is an unconditional insert-or-replace: after
`Put now key value` the key maps to `item(value, now + ttl)` whatever was
stored before, a subsequent `Get` returns `(value, true)`, and the table
carries the key exactly once. -/
theorem put_insert_or_replace {K V : Type} [DecidableEq K] [Inhabited V]
    (m : TtlMap K V) (hWF : m.WF) (now : Int) (key : K) (value : V) :
    goFind (m.Put now key value).entries key = some (item.mk value (now + m.ttl)) ∧
    (m.Put now key value).Get key = (value, true) ∧
    ((m.Put now key value).entries.map Prod.fst).count key = 1 := by
  refine ⟨?_, ?_, ?_⟩
  · simpa [TtlMap.Put] using
      goFind_goAssign_self m.entries key (item.mk value (now + m.ttl))
  · simp [TtlMap.Get, TtlMap.GetS, TtlMap.Put, goFind_goAssign_self]
  · simpa [TtlMap.Put] using
      count_keys_goAssign hWF key (item.mk value (now + m.ttl))

/-- Witness for C2: replacing the live entry of a concrete one-key map. -/
theorem put_insert_or_replace_witness :
    goFind ((TtlMap.mk [((1 : Nat), item.mk (5 : Nat) 10)] 50).Put 100 1 6).entries 1 =
      some (item.mk 6 ((100 : Int) + (TtlMap.mk [((1 : Nat), item.mk (5 : Nat) 10)] 50).ttl)) ∧
    ((TtlMap.mk [((1 : Nat), item.mk (5 : Nat) 10)] 50).Put 100 1 6).Get 1 = (6, true) ∧
    ((((TtlMap.mk [((1 : Nat), item.mk (5 : Nat) 10)] 50).Put 100 1 6).entries.map Prod.fst).count 1 = 1) :=
  put_insert_or_replace (TtlMap.mk [(1, item.mk 5 10)] 50)
    (by unfold TtlMap.WF GoMapWF; decide) 100 1 6

/-- C3: `expiresAt` is written only by `Put`, always as `now + ttl`: `Put`
stores exactly that deadline; `Get` and `GetOrZero` leave the map state
untouched (no refresh-on-read); every entry surviving `Delete` or a sweep
is carried over unchanged (never decremented or recomputed); `Clear`
leaves no entries at all. -/
theorem expiresAt_write_time_invariant {K V : Type} [DecidableEq K] [Inhabited V]
    (m : TtlMap K V) (hWF : m.WF) (now : Int) (key key' : K) (value : V)
    (it : item V) :
    goFind (m.Put now key' value).entries key' = some (item.mk value (now + m.ttl)) ∧
    (m.GetS key).2 = m ∧
    (m.GetOrZeroS key).2 = m ∧
    (goFind (m.Delete key').2.entries key = some it →
      goFind m.entries key = some it) ∧
    (goFind (m.sweep now).entries key = some it →
      goFind m.entries key = some it) ∧
    m.Clear.entries = [] := by
  refine ⟨by simp [TtlMap.Put, goFind_goAssign_self], ?_, ?_, ?_, ?_, rfl⟩
  · cases hg : goFind m.entries key <;> simp [TtlMap.GetS, hg]
  · cases hg : goFind m.entries key <;> simp [TtlMap.GetOrZeroS, hg]
  · intro hsurv
    unfold TtlMap.Delete at hsurv
    cases hg : goFind m.entries key' with
    | none => rw [hg] at hsurv; exact hsurv
    | some it0 =>
        rw [hg] at hsurv
        by_cases hk : key = key'
        · subst hk
          rw [show ((true, { m with entries := goErase m.entries key }) :
                Bool × TtlMap K V).2.entries = goErase m.entries key from rfl,
            goFind_goErase_self hWF key] at hsurv
          cases hsurv
        · rw [show ((true, { m with entries := goErase m.entries key' }) :
                Bool × TtlMap K V).2.entries = goErase m.entries key' from rfl,
            goFind_goErase_ne m.entries hk] at hsurv
          exact hsurv
  · intro hsurv
    rw [goFind_sweep_eq m hWF now key] at hsurv
    cases hg : goFind m.entries key with
    | none => rw [hg] at hsurv; cases hsurv
    | some it0 =>
        rw [hg, Option.some_bind] at hsurv
        by_cases hlt : now < it0.expires
        · rw [if_pos hlt] at hsurv
          exact hsurv
        · rw [if_neg hlt] at hsurv
          cases hsurv

/-- Witness for C3 at a concrete map, keys and instant. -/
theorem expiresAt_write_time_invariant_witness :
    goFind ((TtlMap.mk [((1 : Nat), item.mk (5 : Nat) 10)] 50).Put 100 2 6).entries 2 =
      some (item.mk 6 ((100 : Int) + (TtlMap.mk [((1 : Nat), item.mk (5 : Nat) 10)] 50).ttl)) ∧
    ((TtlMap.mk [((1 : Nat), item.mk (5 : Nat) 10)] 50).GetS 1).2 =
      TtlMap.mk [((1 : Nat), item.mk (5 : Nat) 10)] 50 ∧
    ((TtlMap.mk [((1 : Nat), item.mk (5 : Nat) 10)] 50).GetOrZeroS 1).2 =
      TtlMap.mk [((1 : Nat), item.mk (5 : Nat) 10)] 50 ∧
    (goFind ((TtlMap.mk [((1 : Nat), item.mk (5 : Nat) 10)] 50).Delete 2).2.entries 1 =
        some (item.mk (5 : Nat) 10) →
      goFind (TtlMap.mk [((1 : Nat), item.mk (5 : Nat) 10)] 50).entries 1 =
        some (item.mk (5 : Nat) 10)) ∧
    (goFind ((TtlMap.mk [((1 : Nat), item.mk (5 : Nat) 10)] 50).sweep 100).entries 1 =
        some (item.mk (5 : Nat) 10) →
      goFind (TtlMap.mk [((1 : Nat), item.mk (5 : Nat) 10)] 50).entries 1 =
        some (item.mk (5 : Nat) 10)) ∧
    (TtlMap.mk [((1 : Nat), item.mk (5 : Nat) 10)] 50).Clear.entries = [] :=
  expiresAt_write_time_invariant (TtlMap.mk [(1, item.mk 5 10)] 50)
    (by unfold TtlMap.WF GoMapWF; decide) 100 1 2 6 (item.mk 5 10)

/-- C4: `Delete` removes the entry and returns `true` exactly when the key
is present; on an absent key it returns `false` and leaves the map — and
hence `Len` — unchanged; a further `Delete` of a just-deleted key returns
`false` without changing the map again, so `Delete` is idempotent. -/
theorem delete_present_iff {K V : Type} [DecidableEq K]
    (m : TtlMap K V) (hWF : m.WF) (key : K) :
    ((m.Delete key).1 = true ↔ goFind m.entries key ≠ none) ∧
    goFind (m.Delete key).2.entries key = none ∧
    (goFind m.entries key = none →
      (m.Delete key).1 = false ∧ (m.Delete key).2 = m ∧
      (m.Delete key).2.Len = m.Len) ∧
    (m.Delete key).2.Delete key = (false, (m.Delete key).2) := by
  cases hg : goFind m.entries key with
  | none =>
      refine ⟨by simp [TtlMap.Delete, hg], ?_, ?_, ?_⟩
      · simp [TtlMap.Delete, hg]
      · intro _
        exact ⟨by simp [TtlMap.Delete, hg], by simp [TtlMap.Delete, hg],
          by simp [TtlMap.Delete, hg]⟩
      · simp [TtlMap.Delete, hg]
  | some it =>
      have herase : goFind (goErase m.entries key) key = none :=
        goFind_goErase_self hWF key
      refine ⟨by simp [TtlMap.Delete, hg], ?_, ?_, ?_⟩
      · simpa [TtlMap.Delete, hg] using herase
      · intro hnone
        cases hnone
      · simp [TtlMap.Delete, hg, herase]

/-- Witness for C4 at a concrete one-key map and its present key. -/
theorem delete_present_iff_witness :
    (((TtlMap.mk [((1 : Nat), item.mk (5 : Nat) 10)] 50).Delete 1).1 = true ↔
      goFind (TtlMap.mk [((1 : Nat), item.mk (5 : Nat) 10)] 50).entries 1 ≠ none) ∧
    goFind ((TtlMap.mk [((1 : Nat), item.mk (5 : Nat) 10)] 50).Delete 1).2.entries 1 = none ∧
    (goFind (TtlMap.mk [((1 : Nat), item.mk (5 : Nat) 10)] 50).entries 1 = none →
      ((TtlMap.mk [((1 : Nat), item.mk (5 : Nat) 10)] 50).Delete 1).1 = false ∧
      ((TtlMap.mk [((1 : Nat), item.mk (5 : Nat) 10)] 50).Delete 1).2 =
        TtlMap.mk [((1 : Nat), item.mk (5 : Nat) 10)] 50 ∧
      ((TtlMap.mk [((1 : Nat), item.mk (5 : Nat) 10)] 50).Delete 1).2.Len =
        (TtlMap.mk [((1 : Nat), item.mk (5 : Nat) 10)] 50).Len) ∧
    ((TtlMap.mk [((1 : Nat), item.mk (5 : Nat) 10)] 50).Delete 1).2.Delete 1 =
      (false, ((TtlMap.mk [((1 : Nat), item.mk (5 : Nat) 10)] 50).Delete 1).2) :=
  delete_present_iff (TtlMap.mk [(1, item.mk 5 10)] 50)
    (by unfold TtlMap.WF GoMapWF; decide) 1

/-- C5: `Len` is physical occupancy: it equals the length of the entry
table; a present entry whose deadline has already passed still contributes
one to `Len`, and a sweep tick at or after the deadline removes it and
strictly shrinks `Len`. -/
theorem len_counts_physical_entries {K V : Type} [DecidableEq K]
    (m : TtlMap K V) (hWF : m.WF) (now : Int) (key : K) (it : item V)
    (h : goFind m.entries key = some it) (hexp : it.expires ≤ now) :
    m.Len = m.entries.length ∧
    (TtlMap.mk (goErase m.entries key) m.ttl).Len + 1 = m.Len ∧
    goFind (m.sweep now).entries key = none ∧
    (m.sweep now).Len < m.Len := by
  refine ⟨rfl, length_goErase h, ?_, ?_⟩
  · rw [goFind_sweep_eq m hWF now key, h, Option.some_bind,
      if_neg (not_lt.mpr hexp)]
  · exact length_filter_lt_of_mem (goFind_some_mem h)
      (by simp [not_lt.mpr hexp])

/-- Witness for C5: a concrete logically-expired entry counted by `Len`
until the sweep removes it. -/
theorem len_counts_physical_entries_witness :
    (TtlMap.mk [((1 : Nat), item.mk (7 : Nat) 100)] 50).Len =
      (TtlMap.mk [((1 : Nat), item.mk (7 : Nat) 100)] 50).entries.length ∧
    (TtlMap.mk (goErase (TtlMap.mk [((1 : Nat), item.mk (7 : Nat) 100)] 50).entries 1)
        (TtlMap.mk [((1 : Nat), item.mk (7 : Nat) 100)] 50).ttl).Len + 1 =
      (TtlMap.mk [((1 : Nat), item.mk (7 : Nat) 100)] 50).Len ∧
    goFind ((TtlMap.mk [((1 : Nat), item.mk (7 : Nat) 100)] 50).sweep 150).entries 1 = none ∧
    ((TtlMap.mk [((1 : Nat), item.mk (7 : Nat) 100)] 50).sweep 150).Len <
      (TtlMap.mk [((1 : Nat), item.mk (7 : Nat) 100)] 50).Len :=
  len_counts_physical_entries (TtlMap.mk [(1, item.mk 7 100)] 50)
    (by unfold TtlMap.WF GoMapWF; decide) 150 1 (item.mk 7 100) (by decide) (by decide)

/-- C10: no read-time expiry filtering: a physically present entry is
returned by `Get` as `(storedValue, true)` and by `GetOrZero` as the
stored value even when its deadline has already passed, and only a sweep
tick at or after that deadline removes it from view. -/
theorem get_no_read_time_filtering {K V : Type} [DecidableEq K] [Inhabited V]
    (m : TtlMap K V) (hWF : m.WF) (now : Int) (key : K) (it : item V)
    (h : goFind m.entries key = some it) (hexp : it.expires ≤ now) :
    m.Get key = (it.value, true) ∧
    m.GetOrZero key = it.value ∧
    goFind (m.sweep now).entries key = none := by
  refine ⟨?_, ?_, ?_⟩
  · simp [TtlMap.Get, TtlMap.GetS, h]
  · simp [TtlMap.GetOrZero, TtlMap.GetOrZeroS, h]
  · rw [goFind_sweep_eq m hWF now key, h, Option.some_bind,
      if_neg (not_lt.mpr hexp)]

/-- Witness for C10: a concrete expired-but-unswept entry that `Get` and
`GetOrZero` still return. -/
theorem get_no_read_time_filtering_witness :
    (TtlMap.mk [((1 : Nat), item.mk (7 : Nat) 100)] 50).Get 1 =
      ((item.mk (7 : Nat) 100).value, true) ∧
    (TtlMap.mk [((1 : Nat), item.mk (7 : Nat) 100)] 50).GetOrZero 1 =
      (item.mk (7 : Nat) 100).value ∧
    goFind ((TtlMap.mk [((1 : Nat), item.mk (7 : Nat) 100)] 50).sweep 150).entries 1 = none :=
  get_no_read_time_filtering (TtlMap.mk [(1, item.mk 7 100)] 50)
    (by unfold TtlMap.WF GoMapWF; decide) 150 1 (item.mk 7 100) (by decide) (by decide)

/-- C6: `Copy` is an independent snapshot: on a well-formed table the
returned copy equals the entry table at the moment of the call and the
call leaves the map unchanged; at the heap level the copy is a freshly
allocated map object, allocating it leaves the live object untouched, and
any sequence of caller mutations of the copy object leaves the live
object — and hence every later `Get` against the live table — unchanged. -/
theorem copy_snapshot_independent {K V : Type} [DecidableEq K] [Inhabited V]
    (h : MapHeap K V) (liveId : Nat) (live : List (K × item V)) (ttl : Int)
    (hWFh : h.WF) (hlive : goFind h.store liveId = some live)
    (hWF : GoMapWF live)
    (fs : List (List (K × item V) → List (K × item V))) (key : K) :
    (TtlMap.mk live ttl).Copy = live ∧
    (TtlMap.mk live ttl).CopyS.2 = TtlMap.mk live ttl ∧
    goFind (h.copyAlloc liveId).2.store (h.copyAlloc liveId).1 = some live ∧
    goFind (h.copyAlloc liveId).2.store liveId = some live ∧
    goFind ((h.copyAlloc liveId).2.mutateMany (h.copyAlloc liveId).1 fs).store
      liveId = some live ∧
    TtlMap.Get (TtlMap.mk ((goFind ((h.copyAlloc liveId).2.mutateMany
        (h.copyAlloc liveId).1 fs).store liveId).getD []) ttl) key =
      TtlMap.Get (TtlMap.mk live ttl) key := by
  have hid : liveId < h.next := hWFh liveId (mem_keys_of_goFind_some hlive)
  have hne : liveId ≠ h.next := Nat.ne_of_lt hid
  have hcopy : goCopy [] ((goFind h.store liveId).getD []) = live := by
    rw [hlive]
    exact goCopy_nil hWF
  have h1 : goFind (h.copyAlloc liveId).2.store (h.copyAlloc liveId).1 =
      some live := by
    show goFind (goAssign h.store h.next
      (goCopy [] ((goFind h.store liveId).getD []))) h.next = some live
    rw [goFind_goAssign_self, hcopy]
  have h2 : goFind (h.copyAlloc liveId).2.store liveId = some live := by
    show goFind (goAssign h.store h.next
      (goCopy [] ((goFind h.store liveId).getD []))) liveId = some live
    rw [goFind_goAssign_ne _ _ hne]
    exact hlive
  have h3 : goFind ((h.copyAlloc liveId).2.mutateMany (h.copyAlloc liveId).1
      fs).store liveId = some live := by
    have hne2 : liveId ≠ (h.copyAlloc liveId).1 := hne
    rw [goFind_mutateMany_ne _ hne2 fs]
    exact h2
  refine ⟨goCopy_nil hWF, rfl, h1, h2, h3, ?_⟩
  rw [h3]
  rfl

/-- Witness for C6: a concrete heap with one live map object, copied and
then mutated through the copy. -/
theorem copy_snapshot_independent_witness :
    (TtlMap.mk [((1 : Nat), item.mk (5 : Nat) 10)] 50).Copy =
      [((1 : Nat), item.mk (5 : Nat) 10)] ∧
    (TtlMap.mk [((1 : Nat), item.mk (5 : Nat) 10)] 50).CopyS.2 =
      TtlMap.mk [((1 : Nat), item.mk (5 : Nat) 10)] 50 ∧
    goFind ((MapHeap.mk [(0, [((1 : Nat), item.mk (5 : Nat) 10)])] 1).copyAlloc 0).2.store
      ((MapHeap.mk [(0, [((1 : Nat), item.mk (5 : Nat) 10)])] 1).copyAlloc 0).1 =
      some [((1 : Nat), item.mk (5 : Nat) 10)] ∧
    goFind ((MapHeap.mk [(0, [((1 : Nat), item.mk (5 : Nat) 10)])] 1).copyAlloc 0).2.store 0 =
      some [((1 : Nat), item.mk (5 : Nat) 10)] ∧
    goFind (((MapHeap.mk [(0, [((1 : Nat), item.mk (5 : Nat) 10)])] 1).copyAlloc 0).2.mutateMany
      ((MapHeap.mk [(0, [((1 : Nat), item.mk (5 : Nat) 10)])] 1).copyAlloc 0).1
      [fun l => goErase l 1]).store 0 = some [((1 : Nat), item.mk (5 : Nat) 10)] ∧
    TtlMap.Get (TtlMap.mk ((goFind (((MapHeap.mk [(0, [((1 : Nat), item.mk (5 : Nat) 10)])] 1).copyAlloc 0).2.mutateMany
      ((MapHeap.mk [(0, [((1 : Nat), item.mk (5 : Nat) 10)])] 1).copyAlloc 0).1
      [fun l => goErase l 1]).store 0).getD []) 50) 1 =
      TtlMap.Get (TtlMap.mk [((1 : Nat), item.mk (5 : Nat) 10)] 50) 1 :=
  copy_snapshot_independent (MapHeap.mk [(0, [(1, item.mk 5 10)])] 1) 0
    [(1, item.mk 5 10)] 50 (by unfold MapHeap.WF; decide) (by decide)
    (by unfold GoMapWF; decide) [fun l => goErase l 1] 1

/-- C7 counterexample: with the non-positive sweep interval `0` the `New`
call itself does not fail — it returns exactly the map a valid
construction with interval `1` returns, with empty table and the given
ttl — while `time.NewTicker`, the first action of the background sweeper
goroutine, is what faults, at runtime after construction. -/
theorem new_nonpositive_interval_counterexample :
    New Nat Nat 0 5 0 = New Nat Nat 0 5 1 ∧
    New Nat Nat 0 5 0 = TtlMap.mk [] 5 ∧
    newTicker 0 = Except.error GoFault.nonPositiveTickerInterval :=
  ⟨rfl, rfl, rfl⟩

/-- C7 (amended): for every non-positive sweep interval the construction
call succeeds anyway — `New` performs no validation and returns the empty
table with the given ttl, exactly as for a valid interval — and the
failure surfaces instead at runtime, in the sweeper's first action:
`time.NewTicker` faults on the non-positive interval. -/
theorem new_nonpositive_interval_fails_at_runtime (K V : Type)
    (capacity : Nat) (ttl : Int) {d : Int} (hd : d ≤ 0) :
    New K V capacity ttl d = TtlMap.mk [] ttl ∧
    newTicker d = Except.error GoFault.nonPositiveTickerInterval :=
  ⟨rfl, by simp [newTicker, hd]⟩

/-- Witness for the amended C7 at interval `0`. -/
theorem new_nonpositive_interval_fails_at_runtime_witness :
    New Nat Nat 3 5 0 = TtlMap.mk [] 5 ∧
    newTicker 0 = Except.error GoFault.nonPositiveTickerInterval :=
  new_nonpositive_interval_fails_at_runtime Nat Nat 3 5 (by decide)

/-- C8: `Close` first signals the sweeper and then clears the table: after
one `Close` of a running system the entry table is empty, the sweeper is
in its terminal stopped state with its ticker released, and no further
event — a tick at any instant or another stop signal — changes the
system, so it never sweeps again. -/
theorem close_stops_sweeper_and_clears {K V : Type} (s : Sys K V)
    (now : Int) (h : s.sweeper = SweeperState.running) :
    (Close s).map.entries = [] ∧
    (Close s).sweeper = SweeperState.stopped ∧
    (Close s).tickerActive = false ∧
    sweeperStep (SweeperEvent.tick now) (Close s) = Close s ∧
    sweeperStep SweeperEvent.stopSignal (Close s) = Close s := by
  have hclose : Close s =
      { map := s.map.Clear, sweeper := SweeperState.stopped,
        tickerActive := false } := by
    unfold Close sweeperStep
    rw [h]
  refine ⟨by rw [hclose]; rfl, by rw [hclose], by rw [hclose], ?_, ?_⟩
  · rw [hclose]
    rfl
  · rw [hclose]
    rfl

/-- Witness for C8: closing a concrete running system. -/
theorem close_stops_sweeper_and_clears_witness :
    (Close (Sys.mk (TtlMap.mk [((1 : Nat), item.mk (5 : Nat) 10)] 50)
      SweeperState.running true)).map.entries = [] ∧
    (Close (Sys.mk (TtlMap.mk [((1 : Nat), item.mk (5 : Nat) 10)] 50)
      SweeperState.running true)).sweeper = SweeperState.stopped ∧
    (Close (Sys.mk (TtlMap.mk [((1 : Nat), item.mk (5 : Nat) 10)] 50)
      SweeperState.running true)).tickerActive = false ∧
    sweeperStep (SweeperEvent.tick 100) (Close (Sys.mk
      (TtlMap.mk [((1 : Nat), item.mk (5 : Nat) 10)] 50) SweeperState.running true)) =
      Close (Sys.mk (TtlMap.mk [((1 : Nat), item.mk (5 : Nat) 10)] 50)
        SweeperState.running true) ∧
    sweeperStep SweeperEvent.stopSignal (Close (Sys.mk
      (TtlMap.mk [((1 : Nat), item.mk (5 : Nat) 10)] 50) SweeperState.running true)) =
      Close (Sys.mk (TtlMap.mk [((1 : Nat), item.mk (5 : Nat) 10)] 50)
        SweeperState.running true) :=
  close_stops_sweeper_and_clears (Sys.mk (TtlMap.mk [(1, item.mk 5 10)] 50)
    SweeperState.running true) 100 rfl

/-- C9: in the retained v0.1.0 variant, `Delete` on an absent key unlocks
the mutex twice — once explicitly before `return false` and once through
the deferred unlock — so for every absent key that branch ends in the
runtime fault instead of returning normally. -/
theorem deleteV0_absent_key_faults {K V : Type} [DecidableEq K]
    (m : TtlMapV0 K V) (key : K) (h : goFind m.entries key = none) :
    m.Delete key = Except.error GoFault.unlockOfUnlockedMutex := by
  unfold TtlMapV0.Delete
  rw [h]
  rfl

/-- Witness for C9: deleting the absent key `2` of a concrete v0.1.0 map. -/
theorem deleteV0_absent_key_faults_witness :
    (TtlMapV0.mk [((1 : Nat), ItemV0.mk (5 : Nat) 10)]).Delete 2 =
      Except.error GoFault.unlockOfUnlockedMutex :=
  deleteV0_absent_key_faults (TtlMapV0.mk [(1, ItemV0.mk 5 10)]) 2 (by decide)
